import Mathlib

/-! Verification of the DSR Maintenance Buffer (dsr-maintain-buff.cc).

A shallow embedding of `ns3::dsr::DsrMaintainBuffer` from
`src/src/dsr/model/dsr-maintain-buff.cc`, together with proofs of the
spec's claims about it.

Modelling choices:
* `Ipv4Address` is abstracted to `Nat` (only equality on addresses is used).
* ns-3 `Time` is abstracted to `Int` (a signed number of time units; only
  comparison and addition/subtraction are used).
* The simulator clock `Simulator::Now()` is passed explicitly as a `now`
  argument to every operation that consults it (directly or through `Purge`).
* The buffered packet is abstracted to a `Nat` identifier: no operation of
  the buffer inspects packet contents.
* `std::vector<DsrMaintainBuffEntry>` becomes `List DsrMaintainBuffEntry`
  (front of the list = front of the vector = oldest entry).
* C++ methods that mutate state become state-passing functions returning the
  updated buffer; `Enqueue`, which takes its entry argument by non-const
  reference, additionally returns the caller's entry as it stands after the
  call.
-/

namespace Dsr

/-- An IPv4 address; the buffer only compares addresses for equality, so a
natural number suffices. -/
abbrev Ipv4Address := Nat


/-- One entry of the maintenance buffer (fields of `DsrMaintainBuffEntry`).
`ackId` is a `uint16_t` and `segsLeft` a `uint8_t` in the source; only
equality on them is used, so `Nat` is a faithful abstraction.  `expireTime`
is the absolute deadline stored in the entry (`m_expire` in the header). -/
structure DsrMaintainBuffEntry where
  packet : Nat
  ourAdd : Ipv4Address
  nextHop : Ipv4Address
  src : Ipv4Address
  dst : Ipv4Address
  ackId : Nat
  segsLeft : Nat
  expireTime : Int
deriving DecidableEq, Repr

/-- Modelled from the spec: the accessor `GetExpireTime` lives in
`dsr-maintain-buff.h`, which is not under src/.  Per the spec, `expireTime`
is the absolute deadline ("absolute deadline (relative to the protocol's
time source) after which the entry is considered stale"), so the remaining
lifetime read by `IsExpired` is that deadline minus the current time. -/
def getExpireTime (now : Int) (e : DsrMaintainBuffEntry) : Int :=
  e.expireTime - now

/-- Modelled from the spec: the mutator `SetExpireTime` lives in
`dsr-maintain-buff.h`, which is not under src/.  Per the spec,
"`expireTime` is set once, at insertion, to `now + timeout`". -/
def setExpireTime (now exp : Int) (e : DsrMaintainBuffEntry) :
    DsrMaintainBuffEntry :=
  { e with expireTime := now + exp }

/-- The `IsExpired` functor of dsr-maintain-buff.cc: an entry is expired
exactly when its remaining lifetime `GetExpireTime()` is strictly
negative. -/
def IsExpired (now : Int) (e : DsrMaintainBuffEntry) : Bool :=
  decide (getExpireTime now e < 0)

/-- The maintenance buffer state: the entry vector `m_maintainBuffer`, the
capacity `m_maxLen`, and the timeout `m_maintainBufferTimeout`. -/
structure DsrMaintainBuffer where
  maintainBuffer : List DsrMaintainBuffEntry
  maxLen : Nat
  maintainBufferTimeout : Int
deriving DecidableEq, Repr

/-- `DsrMaintainBuffer::Purge`: erase every entry satisfying `IsExpired`
(`std::remove_if` + `erase`), keeping the relative order of the rest. -/
def Purge (now : Int) (b : DsrMaintainBuffer) : DsrMaintainBuffer :=
  { b with maintainBuffer :=
      b.maintainBuffer.filter (fun e => !(IsExpired now e)) }

/-- `DsrMaintainBuffer::GetSize`: purge, then return the element count
(together with the mutated buffer). -/
def GetSize (now : Int) (b : DsrMaintainBuffer) : Nat × DsrMaintainBuffer :=
  let b1 := Purge now b
  (b1.maintainBuffer.length, b1)

/-- The duplicate-detection condition of `DsrMaintainBuffer::Enqueue`: the
buffered entry `i` agrees with the probe `entry` on
(nextHop, ourAdd, src, dst, ackId, segsLeft). -/
def hasSameKey (i entry : DsrMaintainBuffEntry) : Bool :=
  i.nextHop == entry.nextHop && i.ourAdd == entry.ourAdd &&
  i.src == entry.src && i.dst == entry.dst &&
  i.ackId == entry.ackId && i.segsLeft == entry.segsLeft

/-- `DsrMaintainBuffer::Enqueue`: purge; scan for a full-tuple duplicate and
reject if found; otherwise stamp the caller's entry with the expiry deadline,
drop the front entry when at capacity, and append the stamped entry at the
back.  Returns (result, caller's entry after the call, updated buffer): the
entry is passed by non-const reference in the source, so its post-call value
is observable by the caller. -/
def Enqueue (now : Int) (entry : DsrMaintainBuffEntry)
    (b : DsrMaintainBuffer) : Bool × DsrMaintainBuffEntry × DsrMaintainBuffer :=
  let b1 := Purge now b
  if b1.maintainBuffer.any (fun i => hasSameKey i entry) then
    (false, entry, b1)
  else
    let entry1 := setExpireTime now b.maintainBufferTimeout entry
    let kept := if b1.maintainBuffer.length ≥ b1.maxLen
      then b1.maintainBuffer.tail else b1.maintainBuffer
    (true, entry1, { b1 with maintainBuffer := kept ++ [entry1] })

/-- `DsrMaintainBuffer::DropPacketWithNextHop`: purge, then erase every
entry whose `nextHop` equals the argument (`std::remove_if` + `erase`). -/
def DropPacketWithNextHop (now : Int) (nextHop : Ipv4Address)
    (b : DsrMaintainBuffer) : DsrMaintainBuffer :=
  let b1 := Purge now b
  { b1 with maintainBuffer :=
      b1.maintainBuffer.filter (fun en => !(en.nextHop == nextHop)) }

/-- The loop of `DsrMaintainBuffer::Dequeue`: walk the vector in order; at
the first entry whose `nextHop` matches, copy it out, erase it and stop. -/
def dequeueLoop (nextHop : Ipv4Address) :
    List DsrMaintainBuffEntry → Option DsrMaintainBuffEntry × List DsrMaintainBuffEntry
  | [] => (none, [])
  | i :: rest =>
      if i.nextHop == nextHop then (some i, rest)
      else ((dequeueLoop nextHop rest).1, i :: (dequeueLoop nextHop rest).2)

/-- `DsrMaintainBuffer::Dequeue`: purge, then remove and return the
earliest-inserted entry whose `nextHop` matches; `none` when there is no
match. -/
def Dequeue (now : Int) (nextHop : Ipv4Address) (b : DsrMaintainBuffer) :
    Option DsrMaintainBuffEntry × DsrMaintainBuffer :=
  let b1 := Purge now b
  let r := dequeueLoop nextHop b1.maintainBuffer
  (r.1, { b1 with maintainBuffer := r.2 })

/-- `DsrMaintainBuffer::Find`: a read-only scan for any entry whose
`nextHop` matches; no purge, no mutation (the buffer is returned
unchanged). -/
def Find (nextHop : Ipv4Address) (b : DsrMaintainBuffer) :
    Bool × DsrMaintainBuffer :=
  (b.maintainBuffer.any (fun i => i.nextHop == nextHop), b)

/-- The iterate-and-erase-on-first-match loop shape shared by the four
reconciliation predicates (`AllEqual`, `NetworkEqual`, `PromiscEqual`,
`LinkEqual`): walk the vector in order; at the first element satisfying
`p`, erase it and report success; otherwise report failure. -/
def eraseFirst {α : Type} (p : α → Bool) : List α → Bool × List α
  | [] => (false, [])
  | i :: rest =>
      if p i then (true, rest)
      else ((eraseFirst p rest).1, i :: (eraseFirst p rest).2)

/-- The match condition of `DsrMaintainBuffer::AllEqual`: all six fields
(ourAdd, nextHop, src, dst, ackId, segsLeft) agree. -/
def allKey (i entry : DsrMaintainBuffEntry) : Bool :=
  i.ourAdd == entry.ourAdd && i.nextHop == entry.nextHop &&
  i.src == entry.src && i.dst == entry.dst &&
  i.ackId == entry.ackId && i.segsLeft == entry.segsLeft

/-- The match condition of `DsrMaintainBuffer::NetworkEqual`: the five
fields (ourAdd, nextHop, src, dst, ackId) agree; `segsLeft` is ignored. -/
def networkKey (i entry : DsrMaintainBuffEntry) : Bool :=
  i.ourAdd == entry.ourAdd && i.nextHop == entry.nextHop &&
  i.src == entry.src && i.dst == entry.dst && i.ackId == entry.ackId

/-- The match condition of `DsrMaintainBuffer::PromiscEqual`:
(src, dst, segsLeft, ackId) agree; `ourAdd` and `nextHop` are ignored. -/
def promiscKey (i entry : DsrMaintainBuffEntry) : Bool :=
  i.src == entry.src && i.dst == entry.dst &&
  i.segsLeft == entry.segsLeft && i.ackId == entry.ackId

/-- The match condition of `DsrMaintainBuffer::LinkEqual`:
(src, dst, ourAdd, nextHop) agree; `ackId` and `segsLeft` are ignored. -/
def linkKey (i entry : DsrMaintainBuffEntry) : Bool :=
  i.src == entry.src && i.dst == entry.dst &&
  i.ourAdd == entry.ourAdd && i.nextHop == entry.nextHop

/-- `DsrMaintainBuffer::AllEqual`: erase the earliest-inserted entry that
matches on all six fields, if any; no purge. -/
def AllEqual (entry : DsrMaintainBuffEntry) (b : DsrMaintainBuffer) :
    Bool × DsrMaintainBuffer :=
  let r := eraseFirst (fun i => allKey i entry) b.maintainBuffer
  (r.1, { b with maintainBuffer := r.2 })

/-- `DsrMaintainBuffer::NetworkEqual`: erase the earliest-inserted entry
matching on the five fields excluding `segsLeft`, if any; no purge. -/
def NetworkEqual (entry : DsrMaintainBuffEntry) (b : DsrMaintainBuffer) :
    Bool × DsrMaintainBuffer :=
  let r := eraseFirst (fun i => networkKey i entry) b.maintainBuffer
  (r.1, { b with maintainBuffer := r.2 })

/-- `DsrMaintainBuffer::PromiscEqual`: erase the earliest-inserted entry
matching on (src, dst, segsLeft, ackId), if any; no purge. -/
def PromiscEqual (entry : DsrMaintainBuffEntry) (b : DsrMaintainBuffer) :
    Bool × DsrMaintainBuffer :=
  let r := eraseFirst (fun i => promiscKey i entry) b.maintainBuffer
  (r.1, { b with maintainBuffer := r.2 })

/-- `DsrMaintainBuffer::LinkEqual`: erase the earliest-inserted entry
matching on (src, dst, ourAdd, nextHop), if any; no purge. -/
def LinkEqual (entry : DsrMaintainBuffEntry) (b : DsrMaintainBuffer) :
    Bool × DsrMaintainBuffer :=
  let r := eraseFirst (fun i => linkKey i entry) b.maintainBuffer
  (r.1, { b with maintainBuffer := r.2 })

/-- Specification shape of "remove at most one, the earliest qualifying":
either no element qualifies and the list is unchanged, or the list splits
as `l1 ++ x :: l2` with no qualifying element in `l1`, `x` qualifying, and
the result `l1 ++ l2`. -/
def RemovesFirst {α : Type} (p : α → Bool) (l l' : List α) : Prop :=
  (l.all (fun y => !(p y)) ∧ l' = l) ∨
  ∃ l1 x l2, l = l1 ++ x :: l2 ∧ (∀ y ∈ l1, p y = false) ∧
    p x = true ∧ l' = l1 ++ l2

/-! ## Generic lemmas about the loop shapes -/

theorem eraseFirst_fst {α : Type} (p : α → Bool) (l : List α) :
    (eraseFirst p l).1 = l.any p := by
  induction l with
  | nil => rfl
  | cons i rest ih =>
      by_cases h : p i = true
      · simp [eraseFirst, h]
      · simp [eraseFirst, h, ih]

theorem eraseFirst_of_none {α : Type} (p : α → Bool) (l : List α)
    (h : l.any p = false) : (eraseFirst p l).2 = l := by
  induction l with
  | nil => rfl
  | cons i rest ih =>
      simp only [List.any_cons, Bool.or_eq_false_iff] at h
      simp [eraseFirst, h.1, ih h.2]

theorem eraseFirst_sublist {α : Type} (p : α → Bool) (l : List α) :
    List.Sublist (eraseFirst p l).2 l := by
  induction l with
  | nil => simp [eraseFirst]
  | cons i rest ih =>
      by_cases h : p i = true
      · simp only [eraseFirst, h, if_pos]
        exact (List.sublist_cons_self i rest)
      · simp only [eraseFirst, h, if_neg, Bool.false_eq_true,
          not_false_iff]
        exact ih.cons₂ i

theorem eraseFirst_removesFirst {α : Type} (p : α → Bool) (l : List α) :
    RemovesFirst p l (eraseFirst p l).2 := by
  induction l with
  | nil => exact Or.inl ⟨by simp, rfl⟩
  | cons i rest ih =>
      by_cases h : p i = true
      · exact Or.inr ⟨[], i, rest, by simp [h, eraseFirst]⟩
      · rcases ih with ⟨hall, heq⟩ | ⟨l1, x, l2, hsplit, hnone, hx, hres⟩
        · refine Or.inl ⟨?_, ?_⟩
          · simpa [h] using hall
          · simp [eraseFirst, h, heq]
        · refine Or.inr ⟨i :: l1, x, l2, by simp [hsplit], ?_, hx, ?_⟩
          · intro y hy
            rcases List.mem_cons.mp hy with rfl | hy1
            · simpa using h
            · exact hnone y hy1
          · simp [eraseFirst, h, hres]

theorem eraseFirst_length {α : Type} (p : α → Bool) (l : List α) :
    (eraseFirst p l).2.length = l.length ∨
    (eraseFirst p l).2.length + 1 = l.length := by
  rcases eraseFirst_removesFirst p l with ⟨_, heq⟩ |
    ⟨l1, x, l2, hsplit, _, _, hres⟩
  · exact Or.inl (by rw [heq])
  · right
    subst hsplit
    simp [hres]
    omega

theorem dequeueLoop_eq_eraseFirst (nextHop : Ipv4Address)
    (l : List DsrMaintainBuffEntry) :
    (dequeueLoop nextHop l).2 =
      (eraseFirst (fun i => i.nextHop == nextHop) l).2 := by
  induction l with
  | nil => rfl
  | cons i rest ih =>
      by_cases h : i.nextHop == nextHop
      · simp [dequeueLoop, eraseFirst, h]
      · simp [dequeueLoop, eraseFirst, h, ih]

theorem dequeueLoop_none_iff (nextHop : Ipv4Address)
    (l : List DsrMaintainBuffEntry) :
    (dequeueLoop nextHop l).1 = none ↔
      l.any (fun i => i.nextHop == nextHop) = false := by
  induction l with
  | nil => simp [dequeueLoop]
  | cons i rest ih =>
      by_cases h : i.nextHop == nextHop
      · simp [dequeueLoop, h]
      · simp [dequeueLoop, h, ih]

theorem dequeueLoop_some (nextHop : Ipv4Address)
    (l : List DsrMaintainBuffEntry) (x : DsrMaintainBuffEntry)
    (h : (dequeueLoop nextHop l).1 = some x) :
    ∃ l1 l2, l = l1 ++ x :: l2 ∧ (∀ y ∈ l1, y.nextHop ≠ nextHop) ∧
      x.nextHop = nextHop ∧ (dequeueLoop nextHop l).2 = l1 ++ l2 := by
  induction l with
  | nil => simp [dequeueLoop] at h
  | cons i rest ih =>
      by_cases hi : i.nextHop == nextHop
      · simp only [dequeueLoop, hi, if_pos, Option.some.injEq] at h
        subst h
        exact ⟨[], rest, by simp [dequeueLoop, hi],
          by simp, by simpa using hi, by simp [dequeueLoop, hi]⟩
      · simp only [dequeueLoop, hi, if_neg, Bool.false_eq_true,
          not_false_iff] at h
        rcases ih h with ⟨l1, l2, hsplit, hnone, hx, hres⟩
        refine ⟨i :: l1, l2, by simp [hsplit], ?_, hx, ?_⟩
        · intro y hy
          rcases List.mem_cons.mp hy with rfl | hy1
          · simpa using hi
          · exact hnone y hy1
        · simp [dequeueLoop, hi, hres]

/-! ## Lemmas about `Purge` -/

theorem Purge_maintainBuffer (now : Int) (b : DsrMaintainBuffer) :
    (Purge now b).maintainBuffer =
      b.maintainBuffer.filter (fun e => !(IsExpired now e)) := rfl

theorem mem_Purge_iff (now : Int) (b : DsrMaintainBuffer)
    (e : DsrMaintainBuffEntry) :
    e ∈ (Purge now b).maintainBuffer ↔
      e ∈ b.maintainBuffer ∧ IsExpired now e = false := by
  simp [Purge, List.mem_filter]

theorem Purge_of_no_expired (now : Int) (b : DsrMaintainBuffer)
    (h : ∀ e ∈ b.maintainBuffer, IsExpired now e = false) :
    Purge now b = b := by
  have : b.maintainBuffer.filter (fun e => !(IsExpired now e)) =
      b.maintainBuffer := by
    apply List.filter_eq_self.mpr
    intro a ha
    simp [h a ha]
  simp [Purge, this]

theorem Purge_sublist (now : Int) (b : DsrMaintainBuffer) :
    List.Sublist (Purge now b).maintainBuffer b.maintainBuffer :=
  List.filter_sublist b.maintainBuffer

theorem Purge_no_expired (now : Int) (b : DsrMaintainBuffer) :
    ∀ e ∈ (Purge now b).maintainBuffer, IsExpired now e = false := by
  intro e he
  exact ((mem_Purge_iff now b e).mp he).2

/-! ## Lemmas about `Enqueue` -/

theorem Enqueue_dup (now : Int) (entry : DsrMaintainBuffEntry)
    (b : DsrMaintainBuffer)
    (h : (Purge now b).maintainBuffer.any (fun i => hasSameKey i entry) = true) :
    Enqueue now entry b = (false, entry, Purge now b) := by
  simp [Enqueue, h]

theorem Enqueue_fresh (now : Int) (entry : DsrMaintainBuffEntry)
    (b : DsrMaintainBuffer)
    (h : (Purge now b).maintainBuffer.any (fun i => hasSameKey i entry) = false) :
    Enqueue now entry b =
      (true, setExpireTime now b.maintainBufferTimeout entry,
        { Purge now b with maintainBuffer :=
            (if (Purge now b).maintainBuffer.length ≥ b.maxLen
              then (Purge now b).maintainBuffer.tail
              else (Purge now b).maintainBuffer) ++
            [setExpireTime now b.maintainBufferTimeout entry] }) := by
  simp only [Enqueue, h, Bool.false_eq_true, if_false]
  rfl

/-! ## C1: the four reconciliation predicates -/

/-- C1: `AllEqual` succeeds exactly when some buffered entry agrees with the
probe on all six fields; `NetworkEqual` exactly when the five fields
excluding `segsLeft` agree; `PromiscEqual` exactly when
(src, dst, segsLeft, ackId) agree; `LinkEqual` exactly when
(src, dst, ourAdd, nextHop) agree; and each call removes at most one
buffered entry, namely the earliest-inserted qualifying one
(`RemovesFirst`). -/
theorem c1_reconciliation_predicates (entry : DsrMaintainBuffEntry)
    (b : DsrMaintainBuffer) :
    ((AllEqual entry b).1 = true ↔
      ∃ x ∈ b.maintainBuffer, x.ourAdd = entry.ourAdd ∧
        x.nextHop = entry.nextHop ∧ x.src = entry.src ∧ x.dst = entry.dst ∧
        x.ackId = entry.ackId ∧ x.segsLeft = entry.segsLeft) ∧
    RemovesFirst (fun i => allKey i entry) b.maintainBuffer
      (AllEqual entry b).2.maintainBuffer ∧
    ((NetworkEqual entry b).1 = true ↔
      ∃ x ∈ b.maintainBuffer, x.ourAdd = entry.ourAdd ∧
        x.nextHop = entry.nextHop ∧ x.src = entry.src ∧ x.dst = entry.dst ∧
        x.ackId = entry.ackId) ∧
    RemovesFirst (fun i => networkKey i entry) b.maintainBuffer
      (NetworkEqual entry b).2.maintainBuffer ∧
    ((PromiscEqual entry b).1 = true ↔
      ∃ x ∈ b.maintainBuffer, x.src = entry.src ∧ x.dst = entry.dst ∧
        x.segsLeft = entry.segsLeft ∧ x.ackId = entry.ackId) ∧
    RemovesFirst (fun i => promiscKey i entry) b.maintainBuffer
      (PromiscEqual entry b).2.maintainBuffer ∧
    ((LinkEqual entry b).1 = true ↔
      ∃ x ∈ b.maintainBuffer, x.src = entry.src ∧ x.dst = entry.dst ∧
        x.ourAdd = entry.ourAdd ∧ x.nextHop = entry.nextHop) ∧
    RemovesFirst (fun i => linkKey i entry) b.maintainBuffer
      (LinkEqual entry b).2.maintainBuffer := by
  refine ⟨?_, ?_, ?_, ?_, ?_, ?_, ?_, ?_⟩
  · rw [show (AllEqual entry b).1 =
        (eraseFirst (fun i => allKey i entry) b.maintainBuffer).1 from rfl,
      eraseFirst_fst]
    simp [allKey, List.any_eq_true, and_assoc]
  · exact eraseFirst_removesFirst _ _
  · rw [show (NetworkEqual entry b).1 =
        (eraseFirst (fun i => networkKey i entry) b.maintainBuffer).1 from rfl,
      eraseFirst_fst]
    simp [networkKey, List.any_eq_true, and_assoc]
  · exact eraseFirst_removesFirst _ _
  · rw [show (PromiscEqual entry b).1 =
        (eraseFirst (fun i => promiscKey i entry) b.maintainBuffer).1 from rfl,
      eraseFirst_fst]
    simp [promiscKey, List.any_eq_true, and_assoc]
  · exact eraseFirst_removesFirst _ _
  · rw [show (LinkEqual entry b).1 =
        (eraseFirst (fun i => linkKey i entry) b.maintainBuffer).1 from rfl,
      eraseFirst_fst]
    simp [linkKey, List.any_eq_true, and_assoc]
  · exact eraseFirst_removesFirst _ _

/-! ## Capacity / fill lemmas for C2 -/

theorem hasSameKey_setExpireTime (now t : Int) (x y : DsrMaintainBuffEntry) :
    hasSameKey (setExpireTime now t x) y = hasSameKey x y := rfl

theorem IsExpired_setExpireTime (now t : Int) (e : DsrMaintainBuffEntry)
    (ht : 0 ≤ t) : IsExpired now (setExpireTime now t e) = false := by
  simp [IsExpired, setExpireTime, getExpireTime]
  omega

theorem Enqueue_true_iff (now : Int) (entry : DsrMaintainBuffEntry)
    (b : DsrMaintainBuffer) :
    (Enqueue now entry b).1 = true ↔
      (Purge now b).maintainBuffer.any (fun i => hasSameKey i entry) = false := by
  by_cases h : (Purge now b).maintainBuffer.any (fun i => hasSameKey i entry) = true
  · rw [Enqueue_dup now entry b h]
    simp [h]
  · have h' : (Purge now b).maintainBuffer.any
        (fun i => hasSameKey i entry) = false := by
      simpa using h
    rw [Enqueue_fresh now entry b h']
    simp [h']

theorem Enqueue_length_le (now : Int) (entry : DsrMaintainBuffEntry)
    (b : DsrMaintainBuffer) (hmax : 0 < b.maxLen)
    (hlen : b.maintainBuffer.length ≤ b.maxLen) :
    (Enqueue now entry b).2.2.maintainBuffer.length ≤ b.maxLen := by
  have hple : (Purge now b).maintainBuffer.length ≤ b.maintainBuffer.length :=
    (Purge_sublist now b).length_le
  by_cases h : (Purge now b).maintainBuffer.any (fun i => hasSameKey i entry) = true
  · rw [Enqueue_dup now entry b h]
    show (Purge now b).maintainBuffer.length ≤ b.maxLen
    omega
  · have h' : (Purge now b).maintainBuffer.any
        (fun i => hasSameKey i entry) = false := by simpa using h
    rw [Enqueue_fresh now entry b h']
    by_cases hcap : (Purge now b).maintainBuffer.length ≥ b.maxLen
    · simp only [hcap, if_pos, List.length_append, List.length_tail,
        List.length_cons, List.length_nil]
      omega
    · simp only [hcap, if_neg, not_false_iff, List.length_append,
        List.length_cons, List.length_nil]
      omega

theorem Enqueue_evicts_front (now : Int) (entry : DsrMaintainBuffEntry)
    (b : DsrMaintainBuffer)
    (hacc : (Enqueue now entry b).1 = true)
    (hcap : (Purge now b).maintainBuffer.length = b.maxLen)
    (hmax : 0 < b.maxLen) :
    (Enqueue now entry b).2.2.maintainBuffer =
      (Purge now b).maintainBuffer.tail ++
        [setExpireTime now b.maintainBufferTimeout entry] ∧
    (Enqueue now entry b).2.2.maintainBuffer.length = b.maxLen := by
  have h' := (Enqueue_true_iff now entry b).mp hacc
  rw [Enqueue_fresh now entry b h']
  have hge : (Purge now b).maintainBuffer.length ≥ b.maxLen := by omega
  constructor
  · simp [hge]
  · simp only [hge, if_pos, List.length_append, List.length_tail,
      List.length_cons, List.length_nil]
    omega

theorem fill_step (now : Int) (e : DsrMaintainBuffEntry)
    (b : DsrMaintainBuffer)
    (hnp : ∀ x ∈ b.maintainBuffer, IsExpired now x = false)
    (hlen : b.maintainBuffer.length < b.maxLen)
    (hdup : ∀ x ∈ b.maintainBuffer, hasSameKey x e = false) :
    (Enqueue now e b).2.2 =
      { b with maintainBuffer := b.maintainBuffer ++
          [setExpireTime now b.maintainBufferTimeout e] } := by
  have hp : Purge now b = b := Purge_of_no_expired now b hnp
  have hany : (Purge now b).maintainBuffer.any
      (fun i => hasSameKey i e) = false := by
    rw [hp]
    simp only [List.any_eq_false]
    intro x hx
    simp [hdup x hx]
  rw [Enqueue_fresh now e b hany, hp]
  have hnge : ¬ (b.maintainBuffer.length ≥ b.maxLen) := by omega
  simp [hnge]

theorem fold_fill (now : Int) (es : List DsrMaintainBuffEntry) :
    ∀ b : DsrMaintainBuffer,
    (∀ x ∈ b.maintainBuffer, IsExpired now x = false) →
    b.maintainBuffer.length + es.length ≤ b.maxLen →
    0 ≤ b.maintainBufferTimeout →
    (∀ x ∈ b.maintainBuffer, ∀ y ∈ es, hasSameKey x y = false) →
    es.Pairwise (fun x y => hasSameKey x y = false) →
    es.foldl (fun acc e => (Enqueue now e acc).2.2) b =
      { b with maintainBuffer := b.maintainBuffer ++
          es.map (setExpireTime now b.maintainBufferTimeout) } := by
  induction es with
  | nil =>
      intro b _ _ _ _ _
      simp
  | cons e rest ih =>
      intro b hnp hlen ht hdup hpw
      have hlt : b.maintainBuffer.length < b.maxLen := by
        simp only [List.length_cons] at hlen
        omega
      have hstep := fill_step now e b hnp hlt
        (fun x hx => hdup x hx e (List.mem_cons_self e rest))
      rw [List.foldl_cons, hstep]
      have hpw1 := (List.pairwise_cons.mp hpw).1
      have hpw2 := (List.pairwise_cons.mp hpw).2
      have Hnp : ∀ x ∈ b.maintainBuffer ++
          [setExpireTime now b.maintainBufferTimeout e],
          IsExpired now x = false := by
        intro x hx
        rcases List.mem_append.mp hx with h1 | h2
        · exact hnp x h1
        · rw [List.mem_singleton.mp h2]
          exact IsExpired_setExpireTime now b.maintainBufferTimeout e ht
      have Hlen : (b.maintainBuffer ++
          [setExpireTime now b.maintainBufferTimeout e]).length +
            rest.length ≤ b.maxLen := by
        simp only [List.length_append, List.length_cons, List.length_nil]
        simp only [List.length_cons] at hlen
        omega
      have Hdup : ∀ x ∈ b.maintainBuffer ++
          [setExpireTime now b.maintainBufferTimeout e],
          ∀ y ∈ rest, hasSameKey x y = false := by
        intro x hx y hy
        rcases List.mem_append.mp hx with h1 | h2
        · exact hdup x h1 y (List.mem_cons_of_mem e hy)
        · rw [List.mem_singleton.mp h2, hasSameKey_setExpireTime]
          exact hpw1 y hy
      have := ih { b with maintainBuffer := b.maintainBuffer ++
          [setExpireTime now b.maintainBufferTimeout e] } Hnp Hlen ht Hdup hpw2
      rw [this]
      simp [List.append_assoc]

theorem fill_evict (now : Int) (b : DsrMaintainBuffer)
    (es : List DsrMaintainBuffEntry) (hmax : 0 < b.maxLen)
    (hempty : b.maintainBuffer = []) (ht : 0 ≤ b.maintainBufferTimeout)
    (hlen : es.length = b.maxLen + 1)
    (hpw : es.Pairwise (fun x y => hasSameKey x y = false)) :
    (es.foldl (fun acc e => (Enqueue now e acc).2.2) b).maintainBuffer =
      es.tail.map (setExpireTime now b.maintainBufferTimeout) := by
  rcases List.eq_nil_or_concat es with rfl | ⟨l1, a, rfl⟩
  · simp at hlen
  · rw [List.concat_eq_append] at hlen hpw ⊢
    have hl1 : l1.length = b.maxLen := by
      simp only [List.length_append, List.length_cons, List.length_nil] at hlen
      omega
    have hpw' := (List.pairwise_append.mp hpw)
    have hcross : ∀ x ∈ l1, hasSameKey x a = false := by
      intro x hx
      exact hpw'.2.2 x hx a (List.mem_singleton_self a)
    have hb1 := fold_fill now l1 b
      (by rw [hempty]; intro x hx; simp at hx)
      (by rw [hempty]; simp [hl1])
      ht
      (by rw [hempty]; intro x hx; simp at hx)
      hpw'.1
    rw [List.foldl_append, hb1]
    have hres := Enqueue_fresh now a
      { b with maintainBuffer := b.maintainBuffer ++
          l1.map (setExpireTime now b.maintainBufferTimeout) }
      (by
        rw [Purge_of_no_expired]
        · simp only [List.any_eq_false]
          intro x hx
          rcases List.mem_append.mp hx with h1 | h2
          · rw [hempty] at h1
            simp at h1
          · rcases List.mem_map.mp h2 with ⟨x0, hx0, rfl⟩
            rw [hasSameKey_setExpireTime]
            simp [hcross x0 hx0]
        · intro x hx
          rcases List.mem_append.mp hx with h1 | h2
          · rw [hempty] at h1
            simp at h1
          · rcases List.mem_map.mp h2 with ⟨x0, _, rfl⟩
            exact IsExpired_setExpireTime now b.maintainBufferTimeout x0 ht)
    simp only [List.foldl_cons, List.foldl_nil]
    rw [Purge_of_no_expired] at hres
    · rw [hres]
      rcases l1 with _ | ⟨x, l1'⟩
      · simp at hl1
        omega
      · simp only [hempty, List.nil_append, List.map_cons, List.length_cons,
          List.length_map, List.tail_cons]
        have hge : l1'.length + 1 ≥ b.maxLen := by
          simp only [List.length_cons] at hl1
          omega
        simp [hge, List.tail_append_of_ne_nil]
    · intro x hx
      rcases List.mem_append.mp hx with h1 | h2
      · rw [hempty] at h1
        simp at h1
      · rcases List.mem_map.mp h2 with ⟨x0, _, rfl⟩
        exact IsExpired_setExpireTime now b.maintainBufferTimeout x0 ht

/-! ## C2: capacity invariant and oldest-first eviction -/

/-- C2: starting from any buffer with at most `maxLen` entries (and a
positive capacity), every operation leaves at most `maxLen` entries; when
`Enqueue` accepts a new entry while the (purged) buffer is at capacity it
removes exactly the front (structurally-oldest) entry and appends the new
one, ending at exactly `maxLen` entries; and folding `Enqueue` over
`maxLen + 1` pairwise key-distinct entries from the empty buffer leaves
exactly the last `maxLen` of them (the first-inserted one evicted). -/
theorem c2_capacity_and_eviction (now : Int) (nh : Ipv4Address)
    (p : DsrMaintainBuffEntry) (b : DsrMaintainBuffer)
    (hmax : 0 < b.maxLen) (hlen : b.maintainBuffer.length ≤ b.maxLen) :
    ((Purge now b).maintainBuffer.length ≤ b.maxLen) ∧
    ((GetSize now b).2.maintainBuffer.length ≤ b.maxLen) ∧
    ((Enqueue now p b).2.2.maintainBuffer.length ≤ b.maxLen) ∧
    ((Dequeue now nh b).2.maintainBuffer.length ≤ b.maxLen) ∧
    ((Find nh b).2.maintainBuffer.length ≤ b.maxLen) ∧
    ((DropPacketWithNextHop now nh b).maintainBuffer.length ≤ b.maxLen) ∧
    ((AllEqual p b).2.maintainBuffer.length ≤ b.maxLen) ∧
    ((NetworkEqual p b).2.maintainBuffer.length ≤ b.maxLen) ∧
    ((PromiscEqual p b).2.maintainBuffer.length ≤ b.maxLen) ∧
    ((LinkEqual p b).2.maintainBuffer.length ≤ b.maxLen) ∧
    ((Enqueue now p b).1 = true →
      (Purge now b).maintainBuffer.length = b.maxLen →
      (Enqueue now p b).2.2.maintainBuffer =
        (Purge now b).maintainBuffer.tail ++
          [setExpireTime now b.maintainBufferTimeout p] ∧
      (Enqueue now p b).2.2.maintainBuffer.length = b.maxLen) ∧
    (∀ es : List DsrMaintainBuffEntry,
      b.maintainBuffer = [] → 0 ≤ b.maintainBufferTimeout →
      es.length = b.maxLen + 1 →
      es.Pairwise (fun x y => hasSameKey x y = false) →
      (es.foldl (fun acc e => (Enqueue now e acc).2.2) b).maintainBuffer =
        es.tail.map (setExpireTime now b.maintainBufferTimeout) ∧
      (es.foldl (fun acc e => (Enqueue now e acc).2.2) b).maintainBuffer.length
        = b.maxLen) := by
  have hps : (Purge now b).maintainBuffer.length ≤ b.maintainBuffer.length :=
    (Purge_sublist now b).length_le
  refine ⟨by omega, by
      show (Purge now b).maintainBuffer.length ≤ b.maxLen
      omega,
    Enqueue_length_le now p b hmax hlen, ?_, ?_, ?_, ?_, ?_, ?_, ?_, ?_, ?_⟩
  · show (dequeueLoop nh (Purge now b).maintainBuffer).2.length ≤ b.maxLen
    rw [dequeueLoop_eq_eraseFirst]
    have := (eraseFirst_sublist (fun i => i.nextHop == nh)
      (Purge now b).maintainBuffer).length_le
    omega
  · show b.maintainBuffer.length ≤ b.maxLen
    omega
  · show ((Purge now b).maintainBuffer.filter
        (fun en => !(en.nextHop == nh))).length ≤ b.maxLen
    have := (List.filter_sublist (l := (Purge now b).maintainBuffer)
      (p := fun en => !(en.nextHop == nh))).length_le
    omega
  · have := (eraseFirst_sublist (fun i => allKey i p) b.maintainBuffer).length_le
    show (eraseFirst (fun i => allKey i p) b.maintainBuffer).2.length ≤ b.maxLen
    omega
  · have := (eraseFirst_sublist (fun i => networkKey i p)
      b.maintainBuffer).length_le
    show (eraseFirst (fun i => networkKey i p) b.maintainBuffer).2.length ≤
      b.maxLen
    omega
  · have := (eraseFirst_sublist (fun i => promiscKey i p)
      b.maintainBuffer).length_le
    show (eraseFirst (fun i => promiscKey i p) b.maintainBuffer).2.length ≤
      b.maxLen
    omega
  · have := (eraseFirst_sublist (fun i => linkKey i p)
      b.maintainBuffer).length_le
    show (eraseFirst (fun i => linkKey i p) b.maintainBuffer).2.length ≤
      b.maxLen
    omega
  · intro hacc hcap
    exact Enqueue_evicts_front now p b hacc hcap hmax
  · intro es hempty ht hlen1 hpw
    have h1 := fill_evict now b es hmax hempty ht hlen1 hpw
    refine ⟨h1, ?_⟩
    rw [h1]
    simp only [List.length_map, List.length_tail]
    omega

/-- Witness for C2 at a concrete input: capacity 1, empty buffer. -/
theorem c2_witness :
    (Enqueue 0 ⟨0, 1, 2, 3, 4, 5, 6, 0⟩
      ⟨[], 1, 7⟩).2.2.maintainBuffer.length ≤ 1 :=
  (c2_capacity_and_eviction 0 0 ⟨0, 1, 2, 3, 4, 5, 6, 0⟩ ⟨[], 1, 7⟩
    (by decide) (by decide)).2.2.1

/-! ## C3: duplicate rejection -/

/-- C3 counterexample: with an expired entry and a live duplicate both
buffered, enqueueing a probe whose full-tuple key equals the live entry
returns failure, yet the buffer IS mutated and its size changes — the
initial purge removes the expired entry even on the reject path.  This
refutes the claim's "does not mutate the buffer, and leaves the buffer
size unchanged" for arbitrary buffer states. -/
theorem c3_counterexample :
    (⟨0, 1, 2, 3, 3, 7, 6, 20⟩ : DsrMaintainBuffEntry) ∈
      (⟨[⟨0, 1, 2, 3, 4, 5, 6, 5⟩, ⟨0, 1, 2, 3, 3, 7, 6, 20⟩], 10, 100⟩ :
        DsrMaintainBuffer).maintainBuffer ∧
    IsExpired 10 (⟨0, 1, 2, 3, 3, 7, 6, 20⟩ : DsrMaintainBuffEntry) = false ∧
    hasSameKey (⟨0, 1, 2, 3, 3, 7, 6, 20⟩ : DsrMaintainBuffEntry)
      ⟨9, 1, 2, 3, 3, 7, 6, 0⟩ = true ∧
    (Enqueue 10 ⟨9, 1, 2, 3, 3, 7, 6, 0⟩
      ⟨[⟨0, 1, 2, 3, 4, 5, 6, 5⟩, ⟨0, 1, 2, 3, 3, 7, 6, 20⟩], 10, 100⟩).1 =
      false ∧
    (Enqueue 10 ⟨9, 1, 2, 3, 3, 7, 6, 0⟩
      ⟨[⟨0, 1, 2, 3, 4, 5, 6, 5⟩, ⟨0, 1, 2, 3, 3, 7, 6, 20⟩], 10, 100⟩).2.2 ≠
      ⟨[⟨0, 1, 2, 3, 4, 5, 6, 5⟩, ⟨0, 1, 2, 3, 3, 7, 6, 20⟩], 10, 100⟩ ∧
    (Enqueue 10 ⟨9, 1, 2, 3, 3, 7, 6, 0⟩
      ⟨[⟨0, 1, 2, 3, 4, 5, 6, 5⟩, ⟨0, 1, 2, 3, 3, 7, 6, 20⟩],
        10, 100⟩).2.2.maintainBuffer.length ≠ 2 := by
  decide

/-- C3 amended: enqueueing an entry whose full-tuple key equals a still-live
buffered entry returns failure and performs no mutation beyond the initial
purge: the resulting buffer is exactly the purged buffer; in particular,
when no buffered entry is expired, the buffer and its size are left
entirely unchanged. -/
theorem c3_duplicate_rejected (now : Int) (p : DsrMaintainBuffEntry)
    (b : DsrMaintainBuffer)
    (hdup : ∃ x ∈ b.maintainBuffer,
      hasSameKey x p = true ∧ IsExpired now x = false) :
    (Enqueue now p b).1 = false ∧
    (Enqueue now p b).2.2 = Purge now b ∧
    (Enqueue now p b).2.2.maintainBuffer.length =
      (Purge now b).maintainBuffer.length ∧
    ((∀ x ∈ b.maintainBuffer, IsExpired now x = false) →
      (Enqueue now p b).2.2 = b ∧
      (Enqueue now p b).2.2.maintainBuffer.length =
        b.maintainBuffer.length) := by
  rcases hdup with ⟨x, hx, hkey, hlive⟩
  have hany : (Purge now b).maintainBuffer.any
      (fun i => hasSameKey i p) = true := by
    rw [List.any_eq_true]
    exact ⟨x, (mem_Purge_iff now b x).mpr ⟨hx, hlive⟩, hkey⟩
  rw [Enqueue_dup now p b hany]
  refine ⟨rfl, rfl, rfl, ?_⟩
  intro hall
  rw [show ((false, p, Purge now b) :
      Bool × DsrMaintainBuffEntry × DsrMaintainBuffer).2.2 = Purge now b
    from rfl, Purge_of_no_expired now b hall]
  exact ⟨rfl, rfl⟩

/-- Witness for C3's amended theorem at a concrete input. -/
theorem c3_witness :
    (Enqueue 10 ⟨9, 1, 2, 3, 4, 5, 6, 0⟩
      ⟨[⟨0, 1, 2, 3, 4, 5, 6, 20⟩], 5, 100⟩).1 = false :=
  (c3_duplicate_rejected 10 ⟨9, 1, 2, 3, 4, 5, 6, 0⟩
    ⟨[⟨0, 1, 2, 3, 4, 5, 6, 20⟩], 5, 100⟩ (by decide)).1

/-! ## C4: dequeue -/

/-- C4: `Dequeue` purges first; it returns `none` exactly when no entry of
the purged buffer has the requested `nextHop` (leaving the purged buffer
as is); on success it returns the earliest-inserted matching entry and
removes only that entry; and an immediately repeated dequeue returns
not-found when no further entry with that `nextHop` remains. -/
theorem c4_dequeue (now : Int) (nh : Ipv4Address) (b : DsrMaintainBuffer) :
    ((Dequeue now nh b).1 = none ↔
      ∀ y ∈ (Purge now b).maintainBuffer, y.nextHop ≠ nh) ∧
    ((Dequeue now nh b).1 = none → (Dequeue now nh b).2 = Purge now b) ∧
    (∀ x, (Dequeue now nh b).1 = some x →
      ∃ l1 l2, (Purge now b).maintainBuffer = l1 ++ x :: l2 ∧
        (∀ y ∈ l1, y.nextHop ≠ nh) ∧ x.nextHop = nh ∧
        (Dequeue now nh b).2.maintainBuffer = l1 ++ l2) ∧
    (∀ x, (Dequeue now nh b).1 = some x →
      (∀ y ∈ (Dequeue now nh b).2.maintainBuffer, y.nextHop ≠ nh) →
      (Dequeue now nh (Dequeue now nh b).2).1 = none) := by
  refine ⟨?_, ?_, ?_, ?_⟩
  · rw [show (Dequeue now nh b).1 =
        (dequeueLoop nh (Purge now b).maintainBuffer).1 from rfl,
      dequeueLoop_none_iff]
    simp [List.any_eq_false]
  · intro hnone
    rw [show (Dequeue now nh b).1 =
        (dequeueLoop nh (Purge now b).maintainBuffer).1 from rfl,
      dequeueLoop_none_iff] at hnone
    show ({ Purge now b with maintainBuffer :=
      (dequeueLoop nh (Purge now b).maintainBuffer).2 } : DsrMaintainBuffer) =
      Purge now b
    rw [dequeueLoop_eq_eraseFirst, eraseFirst_of_none _ _ hnone]
  · intro x hx
    exact dequeueLoop_some nh (Purge now b).maintainBuffer x hx
  · intro x _ hrest
    rw [show (Dequeue now nh (Dequeue now nh b).2).1 =
        (dequeueLoop nh
          (Purge now (Dequeue now nh b).2).maintainBuffer).1 from rfl,
      dequeueLoop_none_iff, List.any_eq_false]
    intro y hy
    have hy' : y ∈ (Dequeue now nh b).2.maintainBuffer :=
      (Purge_sublist now (Dequeue now nh b).2).subset hy
    simp [hrest y hy']

/-- Witness for C4 at a concrete input: an empty buffer dequeues to
not-found. -/
theorem c4_witness :
    (Dequeue 0 9 (⟨[⟨0, 1, 2, 3, 4, 5, 6, 20⟩], 5, 100⟩ :
      DsrMaintainBuffer)).1 = none :=
  ((c4_dequeue 0 9 ⟨[⟨0, 1, 2, 3, 4, 5, 6, 20⟩], 5, 100⟩).1).mpr (by decide)

/-! ## C5: expiry removal through size() -/

/-- C5: once the clock has advanced strictly past an entry's deadline,
`GetSize` (whose purge is shared by every purging operation) removes the
entry and returns the count of the remaining entries; a subsequent `Find`
on that entry's `nextHop` returns false provided every entry with that
`nextHop` is expired. -/
theorem c5_expired_entry_removed (now : Int) (b : DsrMaintainBuffer)
    (e : DsrMaintainBuffEntry) (he : e ∈ b.maintainBuffer)
    (hexp : e.expireTime < now) :
    e ∉ (GetSize now b).2.maintainBuffer ∧
    e ∉ (Purge now b).maintainBuffer ∧
    (GetSize now b).1 = (GetSize now b).2.maintainBuffer.length ∧
    ((∀ x ∈ b.maintainBuffer, x.nextHop = e.nextHop → x.expireTime < now) →
      (Find e.nextHop (GetSize now b).2).1 = false) := by
  have hie : IsExpired now e = true := by
    simp only [IsExpired, getExpireTime, decide_eq_true_eq]
    omega
  have hnm : e ∉ (Purge now b).maintainBuffer := by
    intro hmem
    have := ((mem_Purge_iff now b e).mp hmem).2
    rw [hie] at this
    exact Bool.true_eq_false.mp this
  refine ⟨hnm, hnm, rfl, ?_⟩
  intro hall
  show ((Purge now b).maintainBuffer.any
    (fun i => i.nextHop == e.nextHop)) = false
  rw [List.any_eq_false]
  intro x hx
  rcases (mem_Purge_iff now b x).mp hx with ⟨hxb, hxlive⟩
  intro hbeq
  have hxnh : x.nextHop = e.nextHop := by simpa using hbeq
  have := hall x hxb hxnh
  have : IsExpired now x = true := by
    simp only [IsExpired, getExpireTime, decide_eq_true_eq]
    omega
  rw [this] at hxlive
  exact Bool.true_eq_false.mp hxlive

/-- Witness for C5 at a concrete input: a single expired entry is removed
and no longer found. -/
theorem c5_witness :
    (⟨0, 1, 2, 3, 4, 5, 6, 5⟩ : DsrMaintainBuffEntry) ∉
      (GetSize 10 ⟨[⟨0, 1, 2, 3, 4, 5, 6, 5⟩], 5, 100⟩).2.maintainBuffer :=
  (c5_expired_entry_removed 10 ⟨[⟨0, 1, 2, 3, 4, 5, 6, 5⟩], 5, 100⟩
    ⟨0, 1, 2, 3, 4, 5, 6, 5⟩ (by decide) (by decide)).1

/-! ## C6: bulk removal by next hop -/

/-- C6: `DropPacketWithNextHop` purges, then removes exactly the entries
whose `nextHop` matches: the result is the original list filtered to the
non-expired entries with a different `nextHop`, unchanged and in their
original relative order; every surviving entry has a different `nextHop`,
and every live entry with a different `nextHop` survives. -/
theorem c6_drop_by_nexthop (now : Int) (nh : Ipv4Address)
    (b : DsrMaintainBuffer) :
    (DropPacketWithNextHop now nh b).maintainBuffer =
      b.maintainBuffer.filter
        (fun e => !(IsExpired now e) && !(e.nextHop == nh)) ∧
    (∀ e ∈ (DropPacketWithNextHop now nh b).maintainBuffer, e.nextHop ≠ nh) ∧
    (∀ e ∈ b.maintainBuffer, IsExpired now e = false → e.nextHop ≠ nh →
      e ∈ (DropPacketWithNextHop now nh b).maintainBuffer) := by
  have hmain : (DropPacketWithNextHop now nh b).maintainBuffer =
      b.maintainBuffer.filter
        (fun e => !(IsExpired now e) && !(e.nextHop == nh)) := by
    show ((b.maintainBuffer.filter (fun e => !(IsExpired now e))).filter
        (fun en => !(en.nextHop == nh))) = _
    rw [List.filter_filter]
    congr 1
    funext e
    rw [Bool.and_comm]
  refine ⟨hmain, ?_, ?_⟩
  · intro e hmem
    rw [hmain, List.mem_filter] at hmem
    have := hmem.2
    intro hnh
    simp [hnh] at this
  · intro e hmem hlive hnh
    rw [hmain, List.mem_filter]
    refine ⟨hmem, ?_⟩
    simp [hlive, hnh]

/-! ## C7: which operations purge -/

/-- C7: `Find` neither purges nor mutates and reports presence among all
entries, live or stale; the four reconciliation predicates do not purge
(on a failed match the buffer is returned exactly as it was, stale entries
included, and a stale entry can itself be matched); while `GetSize`,
`DropPacketWithNextHop` and `Enqueue` purge before acting, leaving no
expired entry behind. -/
theorem c7_purge_policy (now : Int) (nh : Ipv4Address)
    (p : DsrMaintainBuffEntry) (b : DsrMaintainBuffer)
    (ht : 0 ≤ b.maintainBufferTimeout) :
    ((Find nh b).2 = b) ∧
    ((Find nh b).1 = true ↔ ∃ e ∈ b.maintainBuffer, e.nextHop = nh) ∧
    ((AllEqual p b).1 = false → (AllEqual p b).2 = b) ∧
    ((NetworkEqual p b).1 = false → (NetworkEqual p b).2 = b) ∧
    ((PromiscEqual p b).1 = false → (PromiscEqual p b).2 = b) ∧
    ((LinkEqual p b).1 = false → (LinkEqual p b).2 = b) ∧
    ((AllEqual p b).1 = true ↔
      ∃ x ∈ b.maintainBuffer, allKey x p = true) ∧
    (∀ e ∈ (GetSize now b).2.maintainBuffer, IsExpired now e = false) ∧
    (∀ e ∈ (DropPacketWithNextHop now nh b).maintainBuffer,
      IsExpired now e = false) ∧
    (∀ e ∈ (Enqueue now p b).2.2.maintainBuffer, IsExpired now e = false) := by
  refine ⟨rfl, ?_, ?_, ?_, ?_, ?_, ?_, ?_, ?_, ?_⟩
  · show (b.maintainBuffer.any (fun i => i.nextHop == nh)) = true ↔ _
    simp [List.any_eq_true]
  · intro hf
    rw [show (AllEqual p b).1 =
        (eraseFirst (fun i => allKey i p) b.maintainBuffer).1 from rfl,
      eraseFirst_fst] at hf
    show ({ b with maintainBuffer :=
      (eraseFirst (fun i => allKey i p) b.maintainBuffer).2 } :
        DsrMaintainBuffer) = b
    rw [eraseFirst_of_none _ _ hf]
  · intro hf
    rw [show (NetworkEqual p b).1 =
        (eraseFirst (fun i => networkKey i p) b.maintainBuffer).1 from rfl,
      eraseFirst_fst] at hf
    show ({ b with maintainBuffer :=
      (eraseFirst (fun i => networkKey i p) b.maintainBuffer).2 } :
        DsrMaintainBuffer) = b
    rw [eraseFirst_of_none _ _ hf]
  · intro hf
    rw [show (PromiscEqual p b).1 =
        (eraseFirst (fun i => promiscKey i p) b.maintainBuffer).1 from rfl,
      eraseFirst_fst] at hf
    show ({ b with maintainBuffer :=
      (eraseFirst (fun i => promiscKey i p) b.maintainBuffer).2 } :
        DsrMaintainBuffer) = b
    rw [eraseFirst_of_none _ _ hf]
  · intro hf
    rw [show (LinkEqual p b).1 =
        (eraseFirst (fun i => linkKey i p) b.maintainBuffer).1 from rfl,
      eraseFirst_fst] at hf
    show ({ b with maintainBuffer :=
      (eraseFirst (fun i => linkKey i p) b.maintainBuffer).2 } :
        DsrMaintainBuffer) = b
    rw [eraseFirst_of_none _ _ hf]
  · rw [show (AllEqual p b).1 =
        (eraseFirst (fun i => allKey i p) b.maintainBuffer).1 from rfl,
      eraseFirst_fst]
    simp [List.any_eq_true]
  · exact Purge_no_expired now b
  · intro e hmem
    have : e ∈ (Purge now b).maintainBuffer :=
      (List.filter_sublist _).subset hmem
    exact Purge_no_expired now b e this
  · intro e hmem
    by_cases h : (Purge now b).maintainBuffer.any
        (fun i => hasSameKey i p) = true
    · rw [Enqueue_dup now p b h] at hmem
      exact Purge_no_expired now b e hmem
    · have h' : (Purge now b).maintainBuffer.any
          (fun i => hasSameKey i p) = false := by simpa using h
      rw [Enqueue_fresh now p b h'] at hmem
      rcases List.mem_append.mp hmem with h1 | h2
      · have : e ∈ (Purge now b).maintainBuffer := by
          by_cases hcap : (Purge now b).maintainBuffer.length ≥ b.maxLen
          · rw [if_pos hcap] at h1
            exact (List.tail_sublist _).subset h1
          · rw [if_neg hcap] at h1
            exact h1
        exact Purge_no_expired now b e this
      · rw [List.mem_singleton.mp h2]
        exact IsExpired_setExpireTime now b.maintainBufferTimeout p ht

/-- Witness for C7 at a concrete input: `Find` sees a stale entry. -/
theorem c7_witness :
    (Find 2 (⟨[⟨0, 1, 2, 3, 4, 5, 6, 5⟩], 5, 100⟩ :
      DsrMaintainBuffer)).1 = true :=
  ((c7_purge_policy 10 2 ⟨9, 1, 2, 3, 4, 5, 6, 0⟩
    ⟨[⟨0, 1, 2, 3, 4, 5, 6, 5⟩], 5, 100⟩ (by decide)).2.1).mpr (by decide)

/-! ## C8: expireTime is stamped once and never modified -/

/-- C8: every operation only removes entries verbatim — each operation's
resulting entry list is a sublist of the input list (so no buffered
entry's `expireTime`, or any other field, is ever modified); `Enqueue`'s
result is a sublist of the input extended by the single freshly stamped
entry, and that stamp sets `expireTime` to exactly `now + timeout`. -/
theorem c8_expire_time_stamped_once (now : Int) (nh : Ipv4Address)
    (p : DsrMaintainBuffEntry) (b : DsrMaintainBuffer) :
    List.Sublist (Purge now b).maintainBuffer b.maintainBuffer ∧
    List.Sublist (GetSize now b).2.maintainBuffer b.maintainBuffer ∧
    (Find nh b).2 = b ∧
    List.Sublist (Dequeue now nh b).2.maintainBuffer b.maintainBuffer ∧
    List.Sublist (DropPacketWithNextHop now nh b).maintainBuffer
      b.maintainBuffer ∧
    List.Sublist (AllEqual p b).2.maintainBuffer b.maintainBuffer ∧
    List.Sublist (NetworkEqual p b).2.maintainBuffer b.maintainBuffer ∧
    List.Sublist (PromiscEqual p b).2.maintainBuffer b.maintainBuffer ∧
    List.Sublist (LinkEqual p b).2.maintainBuffer b.maintainBuffer ∧
    List.Sublist (Enqueue now p b).2.2.maintainBuffer
      (b.maintainBuffer ++ [setExpireTime now b.maintainBufferTimeout p]) ∧
    (setExpireTime now b.maintainBufferTimeout p).expireTime =
      now + b.maintainBufferTimeout := by
  have hpurge := Purge_sublist now b
  refine ⟨hpurge, hpurge, rfl, ?_, ?_, ?_, ?_, ?_, ?_, ?_, rfl⟩
  · show List.Sublist (dequeueLoop nh (Purge now b).maintainBuffer).2
      b.maintainBuffer
    rw [dequeueLoop_eq_eraseFirst]
    exact (eraseFirst_sublist _ _).trans hpurge
  · exact (List.filter_sublist _).trans hpurge
  · exact eraseFirst_sublist _ _
  · exact eraseFirst_sublist _ _
  · exact eraseFirst_sublist _ _
  · exact eraseFirst_sublist _ _
  · by_cases h : (Purge now b).maintainBuffer.any
        (fun i => hasSameKey i p) = true
    · rw [Enqueue_dup now p b h]
      exact hpurge.trans (List.sublist_append_left _ _)
    · have h' : (Purge now b).maintainBuffer.any
          (fun i => hasSameKey i p) = false := by simpa using h
      rw [Enqueue_fresh now p b h']
      show List.Sublist ((if (Purge now b).maintainBuffer.length ≥ b.maxLen
        then (Purge now b).maintainBuffer.tail
        else (Purge now b).maintainBuffer) ++ [_]) _
      refine List.Sublist.append ?_ (List.Sublist.refl _)
      by_cases hcap : (Purge now b).maintainBuffer.length ≥ b.maxLen
      · rw [if_pos hcap]
        exact (List.tail_sublist _).trans hpurge
      · rw [if_neg hcap]
        exact hpurge

/-! ## C9: purge removes only strictly past-deadline entries -/

/-- C9: purge removes an entry exactly when its remaining lifetime is
strictly negative; an entry whose deadline coincides with the current time
is retained by `Purge` and still counted (and kept) by `GetSize`. -/
theorem c9_strict_expiry (now : Int) (b : DsrMaintainBuffer)
    (e : DsrMaintainBuffEntry) (he : e ∈ b.maintainBuffer)
    (hdl : e.expireTime = now) :
    e ∈ (Purge now b).maintainBuffer ∧
    e ∈ (GetSize now b).2.maintainBuffer ∧
    0 < (GetSize now b).1 ∧
    (∀ x ∈ b.maintainBuffer,
      (x ∈ (Purge now b).maintainBuffer ↔ ¬ getExpireTime now x < 0)) := by
  have hlive : IsExpired now e = false := by
    simp only [IsExpired, getExpireTime, decide_eq_false_iff_not, not_lt]
    omega
  have hmem : e ∈ (Purge now b).maintainBuffer :=
    (mem_Purge_iff now b e).mpr ⟨he, hlive⟩
  refine ⟨hmem, hmem, ?_, ?_⟩
  · show 0 < (Purge now b).maintainBuffer.length
    exact List.length_pos.mpr (List.ne_nil_of_mem hmem)
  · intro x hx
    rw [mem_Purge_iff]
    constructor
    · intro h
      have := h.2
      simp only [IsExpired, decide_eq_false_iff_not] at this
      exact this
    · intro h
      refine ⟨hx, ?_⟩
      simp only [IsExpired, decide_eq_false_iff_not]
      exact h

/-- Witness for C9 at a concrete input: deadline exactly equal to the
current time is retained and counted. -/
theorem c9_witness :
    (⟨0, 1, 2, 3, 4, 5, 6, 10⟩ : DsrMaintainBuffEntry) ∈
      (Purge 10 ⟨[⟨0, 1, 2, 3, 4, 5, 6, 10⟩], 5, 100⟩).maintainBuffer :=
  (c9_strict_expiry 10 ⟨[⟨0, 1, 2, 3, 4, 5, 6, 10⟩], 5, 100⟩
    ⟨0, 1, 2, 3, 4, 5, 6, 10⟩ (by decide) (by decide)).1

/-! ## C10: Enqueue mutates its by-reference argument -/

/-- C10: `Enqueue` takes its argument by mutable reference: on every
accepted (non-duplicate) insertion the caller's entry has its
`expireTime` overwritten to `now + timeout` before being copied into the
buffer (the appended entry is that very value), while on a duplicate
rejection the caller's entry is returned untouched. -/
theorem c10_enqueue_mutates_argument (now : Int) (p : DsrMaintainBuffEntry)
    (b : DsrMaintainBuffer) :
    ((Enqueue now p b).1 = true →
      (Enqueue now p b).2.1 = setExpireTime now b.maintainBufferTimeout p ∧
      (Enqueue now p b).2.1.expireTime = now + b.maintainBufferTimeout ∧
      (Enqueue now p b).2.2.maintainBuffer.getLast? =
        some (Enqueue now p b).2.1) ∧
    ((Enqueue now p b).1 = false → (Enqueue now p b).2.1 = p) := by
  by_cases h : (Purge now b).maintainBuffer.any
      (fun i => hasSameKey i p) = true
  · rw [Enqueue_dup now p b h]
    constructor
    · intro hacc
      exact absurd hacc (by simp)
    · intro _
      rfl
  · have h' : (Purge now b).maintainBuffer.any
        (fun i => hasSameKey i p) = false := by simpa using h
    rw [Enqueue_fresh now p b h']
    constructor
    · intro _
      refine ⟨rfl, rfl, ?_⟩
      show ((if (Purge now b).maintainBuffer.length ≥ b.maxLen
        then (Purge now b).maintainBuffer.tail
        else (Purge now b).maintainBuffer) ++
          [setExpireTime now b.maintainBufferTimeout p]).getLast? = _
      rw [List.getLast?_concat]
    · intro hrej
      exact absurd hrej (by simp)

/-- Witness for C10 at a concrete input: a successful enqueue returns the
caller's entry restamped. -/
theorem c10_witness :
    (Enqueue 3 ⟨0, 1, 2, 3, 4, 5, 6, 0⟩
      (⟨[], 5, 100⟩ : DsrMaintainBuffer)).2.1 =
      setExpireTime 3 100 ⟨0, 1, 2, 3, 4, 5, 6, 0⟩ :=
  ((c10_enqueue_mutates_argument 3 ⟨0, 1, 2, 3, 4, 5, 6, 0⟩
    ⟨[], 5, 100⟩).1 (by decide)).1

end Dsr
